import Mathlib

set_option maxRecDepth 8000
set_option maxHeartbeats 1000000

/-!
Verification development for the aprsserver repository (an APRS-IS relay
server written in Rust).  The definitions below are shallow embeddings of
the functions in `src/server.rs`, `src/hub.rs`, `src/filter.rs`,
`src/client.rs` and `src/uplink.rs`.  Rust strings are modelled as
`List Char` (one entry per Unicode scalar; positions coincide with byte
positions on the ASCII data the protocol carries), except for the
position parser, which is modelled at the byte level (`List Nat`) because
its behaviour depends on UTF-8 byte slicing.  Machine integers are
modelled as `Nat` with explicit masking where the code masks.  Wall-clock
data (`Instant`, `SystemTime`) and socket I/O errors are not modelled; a
TCP stream's write side is modelled as the list of chunks written to it.
-/

namespace Aprsserver

/-- ASCII lower-casing of a single character, the per-character model of
Rust case folding as used on the protocol's ASCII keywords. -/
def asciiLower (c : Char) : Char :=
  if 65 ≤ c.toNat ∧ c.toNat ≤ 90 then Char.ofNat (c.toNat + 32) else c

/-- ASCII upper-casing of a single character.  Embedding of Rust
`str::to_uppercase` restricted to its per-character ASCII action
(callsigns and filter arguments are ASCII; multi-character Unicode
expansions are not modelled). -/
def asciiUpper (c : Char) : Char :=
  if 97 ≤ c.toNat ∧ c.toNat ≤ 122 then Char.ofNat (c.toNat - 32) else c

/-- Embedding of Rust `str::trim`: drop leading and trailing whitespace
(the protocol's whitespace is ASCII; `Char.isWhitespace` covers it). -/
def rustTrim (l : List Char) : List Char :=
  ((l.dropWhile Char.isWhitespace).reverse.dropWhile Char.isWhitespace).reverse

/-- Embedding of Rust `str::find`: index of the first element satisfying
`p`, or `none`.  On ASCII data the index coincides with Rust's byte
index. -/
def strFind (p : Char → Bool) : List Char → Option Nat
  | [] => none
  | c :: rest => if p c then some 0 else (strFind p rest).map (fun n => n + 1)

/-- Embedding of Rust `str::split_whitespace`: maximal runs of
non-whitespace characters. -/
def splitWs (l : List Char) : List (List Char) :=
  (l.splitOnP (fun c => c.isWhitespace)).filter (fun t => ¬ t.isEmpty)

/-- Embedding of Rust `str::eq_ignore_ascii_case`. -/
def eqIgnoreAsciiCase (a b : List Char) : Bool :=
  decide (a.map asciiLower = b.map asciiLower)

/-- Embedding of Rust `u16::from_str` (used for the login passcode):
an optional leading `+`, then one or more ASCII digits, rejected on
overflow past `u16::MAX`.  (`u16::from_str` is Rust's standard library;
its accept/reject behaviour is modelled exactly, the value as a `Nat`.) -/
def rustU16Parse (s : List Char) : Option Nat :=
  let r := match s with
    | '+' :: t => t
    | t => t
  if r.isEmpty then none
  else if r.all Char.isDigit then
    let v := r.foldl (fun a c => a * 10 + (c.toNat - 48)) 0
    if v < 65536 then some v else none
  else none

/-- Embedding of the token scan in `handle_client` (src/server.rs,
login handling): walk the whitespace tokens; a token equal to `user`
(ASCII-case-insensitively) makes the next token the callsign, a token
equal to `pass` makes the next token the passcode; either is overwritten
by `none` when the keyword is the last token, exactly as
`parts.next()` yields `None` in the source. -/
def scanLogin : List (List Char) → Option (List Char) → Option (List Char) →
    Option (List Char) × Option (List Char)
  | [], cs, pw => (cs, pw)
  | t :: rest, cs, pw =>
    if eqIgnoreAsciiCase t ("user".toList) then
      match rest with
      | [] => (none, pw)
      | c :: rest2 => scanLogin rest2 (some c) pw
    else if eqIgnoreAsciiCase t ("pass".toList) then
      match rest with
      | [] => (cs, none)
      | p :: rest2 => scanLogin rest2 cs (some p)
    else scanLogin rest cs pw

/-- Embedding of the accumulator loop of `aprs_passcode` (src/server.rs
lines 19-26): fold over the characters with their 0-based index, XOR-ing
the character's low byte (`c as u8`) shifted into the upper byte at even
indices and unshifted at odd indices. -/
def passcodeLoop : List Char → Nat → Nat → Nat
  | [], _, hash => hash
  | c :: rest, i, hash =>
    let b := c.toNat % 256
    let hash1 := if i % 2 = 0 then hash ^^^ (b <<< 8) else hash ^^^ b
    passcodeLoop rest (i + 1) hash1

/-- Embedding of `aprs_passcode` (src/server.rs lines 12-28): uppercase
the callsign, truncate at the first `-`, run the XOR accumulator from
`0x73e2070a`, and mask with `0x7fff`. -/
def aprs_passcode (callsign : List Char) : Nat :=
  let up := (callsign.map asciiUpper).takeWhile (fun c => c ≠ '-')
  (passcodeLoop up 0 0x73e2070a) &&& 0x7fff

/-- The passcode algorithm as the specification words it (spec §4.1):
strip any `-SSID` suffix, uppercase, start from `0x73E2070A`, XOR each
0-indexed character's byte into the upper byte at even positions and the
lower byte at odd positions, mask with `0x7FFF`.  Stated independently of
`aprs_passcode` to serve as the reference side of the refinement claim. -/
def passcodeSpec (callsign : List Char) : Nat :=
  let stripped := callsign.takeWhile (fun c => c ≠ '-')
  let up := stripped.map asciiUpper
  (up.enum.foldl
      (fun h ic =>
        if ic.1 % 2 = 0 then h ^^^ ((ic.2.toNat % 256) <<< 8)
        else h ^^^ (ic.2.toNat % 256))
      0x73e2070a) &&& 0x7fff

/-- Embedding of `is_valid_aprs_packet` (src/server.rs lines 30-41):
trim, reject the empty line, then require the first `>` at a position
`gt > 0` and the first `:` at a position `colon > gt + 1`. -/
def is_valid_aprs_packet (l : List Char) : Bool :=
  let line := rustTrim l
  if line.isEmpty then false
  else
    match strFind (fun c => c = '>') line, strFind (fun c => c = ':') line with
    | some gt, some colon => decide (0 < gt) && decide (gt + 1 < colon)
    | _, _ => false

/-- Model of an IEEE value as produced by Rust `f64::from_str`: finite
values are kept as exact rationals (f64 rounding, and overflow of
syntactically finite literals to infinity, are not modelled); the `inf`,
`-inf` and `nan` literals map to the three special constructors. -/
inductive FV where
  | fin : ℚ → FV
  | inf : FV
  | neginf : FV
  | nan : FV
deriving DecidableEq

/-- Negation on the float model (Rust unary `-` on f64). -/
def FV.neg : FV → FV
  | .fin q => .fin (-q)
  | .inf => .neginf
  | .neginf => .inf
  | .nan => .nan

/-- Addition on the float model. -/
def FV.add : FV → FV → FV
  | .nan, _ => .nan
  | _, .nan => .nan
  | .fin a, .fin b => .fin (a + b)
  | .inf, .neginf => .nan
  | .neginf, .inf => .nan
  | .inf, _ => .inf
  | _, .inf => .inf
  | .neginf, _ => .neginf
  | _, .neginf => .neginf

/-- Division by the positive constant 60 on the float model. -/
def FV.div60 : FV → FV
  | .fin q => .fin (q / 60)
  | .inf => .inf
  | .neginf => .neginf
  | .nan => .nan

/-- ASCII digit test on a byte. -/
def isDigitB (b : Nat) : Bool := 48 ≤ b && b ≤ 57

/-- ASCII lower-casing of a byte. -/
def lowerB (b : Nat) : Nat := if 65 ≤ b ∧ b ≤ 90 then b + 32 else b

/-- Decimal value of a digit-byte string. -/
def digitsToNat (l : List Nat) : Nat := l.foldl (fun a b => a * 10 + (b - 48)) 0

/-- Mantissa part of the Rust `f64::from_str` grammar: digits, an
optional `.` with further digits, at least one digit overall; returns the
exact rational value and the unconsumed rest. -/
def parseDecMantissa (r : List Nat) : Option (ℚ × List Nat) :=
  let d1 := r.takeWhile isDigitB
  let r1 := r.dropWhile isDigitB
  match r1 with
  | 46 :: r2 =>
    let d2 := r2.takeWhile isDigitB
    let r3 := r2.dropWhile isDigitB
    if d1.isEmpty && d2.isEmpty then none
    else some ((digitsToNat d1 : ℚ) + (digitsToNat d2 : ℚ) / (10 : ℚ) ^ d2.length, r3)
  | _ =>
    if d1.isEmpty then none else some ((digitsToNat d1 : ℚ), r1)

/-- Exponent part of the Rust `f64::from_str` grammar: either nothing, or
`e`/`E`, an optional sign and one or more digits consuming the whole
rest. -/
def parseExp (r : List Nat) : Option Int :=
  match r with
  | [] => some 0
  | e :: r1 =>
    if e = 101 ∨ e = 69 then
      let sr : Bool × List Nat := match r1 with
        | 43 :: t => (false, t)
        | 45 :: t => (true, t)
        | t => (false, t)
      if ¬ sr.2.isEmpty ∧ sr.2.all isDigitB then
        some (if sr.1 then -(digitsToNat sr.2 : Int) else (digitsToNat sr.2 : Int))
      else none
    else none

/-- Embedding of Rust `f64::from_str` over the input bytes: an optional
sign, then (case-insensitively) `inf`, `infinity` or `nan`, or a decimal
number with optional fraction and exponent.  Acceptance is modelled
exactly; finite values are exact rationals (see `FV`). -/
def rustF64Parse (s : List Nat) : Option FV :=
  let sr : Bool × List Nat := match s with
    | 43 :: t => (false, t)
    | 45 :: t => (true, t)
    | t => (false, t)
  let low := sr.2.map lowerB
  if low = [105, 110, 102] ∨ low = [105, 110, 102, 105, 110, 105, 116, 121] then
    some (if sr.1 then FV.neginf else FV.inf)
  else if low = [110, 97, 110] then some FV.nan
  else
    match parseDecMantissa sr.2 with
    | none => none
    | some mr =>
      match parseExp mr.2 with
      | none => none
      | some e =>
        let v : ℚ := mr.1 * (10 : ℚ) ^ e
        some (FV.fin (if sr.1 then -v else v))

/-- Rust `f64::from_str` applied to a `List Char` field (filter
expressions): characters map to their scalar values; non-ASCII scalars
fall outside the grammar exactly as the corresponding bytes would. -/
def rustF64ParseChars (l : List Char) : Option FV := rustF64Parse (l.map Char.toNat)

/-- Embedding of Rust `str::find` at the byte level. -/
def strFindB (p : Nat → Bool) : List Nat → Option Nat
  | [] => none
  | b :: rest => if p b then some 0 else (strFindB p rest).map (fun n => n + 1)

/-- Embedding of Rust `str::is_char_boundary` over the raw bytes of a
(valid UTF-8) string: the end of the string, or an index holding a byte
that is not a UTF-8 continuation byte. -/
def isCharBoundaryB (s : List Nat) (i : Nat) : Bool :=
  if i = s.length then true
  else
    match s[i]? with
    | some b => b < 128 || 192 ≤ b
    | none => false

/-- Embedding of Rust string slicing `&s[a..b]`: the byte range when both
ends are in bounds and on character boundaries, `none` where Rust
panics. -/
def strSliceB (s : List Nat) (a b : Nat) : Option (List Nat) :=
  if a ≤ b ∧ b ≤ s.length ∧ isCharBoundaryB s a ∧ isCharBoundaryB s b then
    some ((s.drop a).take (b - a))
  else none

/-- The slicing-and-parsing body of `parse_aprs_lat_lon` (src/server.rs
lines 79-92), applied to the 19-or-more bytes after the marker; factored
out of `parse_aprs_lat_lon` below.  `Except.error ()` models a Rust
panic (an out-of-boundary byte slice); `Except.ok none` models the
`None` returns; the slices and numeric parses occur in the source's
evaluation order.  Byte 83 is `S`, 87 is `W`. -/
def parseLatLonData (data : List Nat) : Except Unit (Option (FV × FV)) :=
  match strSliceB data 0 8 with
        | none => .error ()
        | some lat_str =>
        match strSliceB data 7 8 with
        | none => .error ()
        | some ns =>
        match strSliceB data 9 18 with
        | none => .error ()
        | some lon_str =>
        match strSliceB data 17 18 with
        | none => .error ()
        | some ew =>
        match strSliceB lat_str 0 2 with
        | none => .error ()
        | some lds =>
        match rustF64Parse lds with
        | none => .ok none
        | some lat_deg =>
        match strSliceB lat_str 2 7 with
        | none => .error ()
        | some lms =>
        match rustF64Parse lms with
        | none => .ok none
        | some lat_min =>
        let lat0 := FV.add lat_deg (FV.div60 lat_min)
        let lat := if ns = [83] then lat0.neg else lat0
        match strSliceB lon_str 0 3 with
        | none => .error ()
        | some los =>
        match rustF64Parse los with
        | none => .ok none
        | some lon_deg =>
        match strSliceB lon_str 3 8 with
        | none => .error ()
        | some lns =>
        match rustF64Parse lns with
        | none => .ok none
        | some lon_min =>
        let lon0 := FV.add lon_deg (FV.div60 lon_min)
        let lon := if ew = [87] then lon0.neg else lon0
        .ok (some (lat, lon))

/-- Embedding of `parse_aprs_lat_lon` (src/server.rs lines 70-93) over
the packet's bytes: locate the payload after the first `:` (byte 58),
find the first `!` (33) or `=` (61) marker, require at least 19 bytes
after it, then run the slicing-and-parsing body `parseLatLonData`. -/
def parse_aprs_lat_lon (packet : List Nat) : Except Unit (Option (FV × FV)) :=
  match strFindB (fun b => b = 58) packet with
  | none => .ok none
  | some ci =>
    let payload := packet.drop (ci + 1)
    match (strFindB (fun b => b = 33) payload).orElse
        (fun _ => strFindB (fun b => b = 61) payload) with
    | none => .ok none
    | some pos =>
      let data := payload.drop (pos + 1)
      if data.length < 19 then .ok none
      else parseLatLonData data

/-- Field-wise position extraction at fixed offsets into the 19 bytes
after the marker, stated per the amended reading of the claim: the four
numeric fields must parse as f64; the hemisphere bytes (offsets 7 and 17)
and the separator byte (offset 8) are not validated, with only `S` and
`W` triggering negation. -/
def parseLatLonFields (data : List Nat) : Option (FV × FV) :=
  match rustF64Parse (data.take 2), rustF64Parse ((data.drop 2).take 5),
      rustF64Parse ((data.drop 9).take 3), rustF64Parse ((data.drop 12).take 5) with
  | some lat_deg, some lat_min, some lon_deg, some lon_min =>
    let lat0 := FV.add lat_deg (FV.div60 lat_min)
    let lat := if (data.drop 7).take 1 = [83] then lat0.neg else lat0
    let lon0 := FV.add lon_deg (FV.div60 lon_min)
    let lon := if (data.drop 17).take 1 = [87] then lon0.neg else lon0
    some (lat, lon)
  | _, _, _, _ => none

/-- The position parser as the amended claim describes it on inputs where
no slice can panic: locate the payload after the first `:`, find the
first `!` or `=` marker, require 19 bytes, and extract the fields at
fixed offsets. -/
def parse_aprs_lat_lon_ascii (packet : List Nat) : Option (FV × FV) :=
  match strFindB (fun b => b = 58) packet with
  | none => none
  | some ci =>
    let payload := packet.drop (ci + 1)
    match (strFindB (fun b => b = 33) payload).orElse
        (fun _ => strFindB (fun b => b = 61) payload) with
    | none => none
    | some pos =>
      let data := payload.drop (pos + 1)
      if data.length < 19 then none
      else parseLatLonFields data

/-- Embedding of `ClientFilter` (src/filter.rs lines 4-12).  The `Type`
variant is renamed `Typ` (`Type` is reserved in Lean); area and box
coordinates carry the float model `FV`. -/
inductive ClientFilter where
  | Area (lat lon radius_km : FV)
  | Box (lat1 lon1 lat2 lon2 : FV)
  | Prefix (s : List Char)
  | Typ (s : List Char)
  | Object (s : List Char)
  | All
deriving DecidableEq

/-- Embedding of `ClientFilter::from_str` (src/filter.rs lines 14-59):
`a/*`/`all`, then the `r/` arm when it splits into exactly 4 parts, the
`a/` arm at exactly 5 parts (otherwise both fall through), then the
`p/`, `t/`, `o/` arms taking the remainder of the token, otherwise the
`Unknown filter type` error. -/
def ClientFilter.from_str (s0 : List Char) : Except (List Char) ClientFilter :=
  let s := rustTrim s0
  if s = "a/*".toList ∨ s = "all".toList then .ok .All
  else if ("r/".toList).isPrefixOf s ∧ (s.splitOn '/').length = 4 then
    match rustF64ParseChars ((s.splitOn '/').getD 1 []) with
    | none => .error ("Invalid latitude".toList)
    | some lat =>
      match rustF64ParseChars ((s.splitOn '/').getD 2 []) with
      | none => .error ("Invalid longitude".toList)
      | some lon =>
        match rustF64ParseChars ((s.splitOn '/').getD 3 []) with
        | none => .error ("Invalid radius".toList)
        | some radius => .ok (.Area lat lon radius)
  else if ("a/".toList).isPrefixOf s ∧ (s.splitOn '/').length = 5 then
    match rustF64ParseChars ((s.splitOn '/').getD 1 []) with
    | none => .error ("Invalid lat1".toList)
    | some lat1 =>
      match rustF64ParseChars ((s.splitOn '/').getD 2 []) with
      | none => .error ("Invalid lon1".toList)
      | some lon1 =>
        match rustF64ParseChars ((s.splitOn '/').getD 3 []) with
        | none => .error ("Invalid lat2".toList)
        | some lat2 =>
          match rustF64ParseChars ((s.splitOn '/').getD 4 []) with
          | none => .error ("Invalid lon2".toList)
          | some lon2 => .ok (.Box lat1 lon1 lat2 lon2)
  else if ("p/".toList).isPrefixOf s then .ok (.Prefix (s.drop 2))
  else if ("t/".toList).isPrefixOf s then .ok (.Typ (s.drop 2))
  else if ("o/".toList).isPrefixOf s then .ok (.Object (s.drop 2))
  else .error ("Unknown filter type".toList)

/-- Embedding of `ClientFilter::matches` (src/filter.rs lines 61-99).
The `Area` and `Box` arms evaluate floating-point geometry (position
parse, haversine, f64 comparisons); floating point is not modelled, so
those two arms are delegated to the `geo` parameter, which stands for
that computation.  The other arms are embedded exactly. -/
def ClientFilter.matches (geo : ClientFilter → List Char → Bool) :
    ClientFilter → List Char → Bool
  | .All, _ => true
  | .Area a b c, packet => geo (.Area a b c) packet
  | .Box a b c d, packet => geo (.Box a b c d) packet
  | .Prefix p, packet => (p.map asciiUpper).isPrefixOf (packet.map asciiUpper)
  | .Typ t, packet =>
    match strFind (fun c => c = ':') packet with
    | some colon => t.isPrefixOf (packet.drop (colon + 1))
    | none => false
  | .Object o, packet => decide (o <:+: packet)

/-- Modelled from the spec: the `seahash` crate is external to this
repository.  The spec (§4.1 Fingerprint) requires only a stable,
deterministic fingerprint of the packet bytes used as the dedup-cache
key; it is modelled as the packet itself, i.e. a collision-free
fingerprint. -/
def seahash_hash (packet : List Char) : List Char := packet

/-- Embedding of `Client` (src/client.rs lines 8-18).  `_id` is renamed
`cid`; the `TcpStream` write side is `stream`, the list of chunks written
to the socket; `connect_time` (wall clock) is not modelled. -/
structure Client where
  cid : Nat
  stream : List (List Char)
  filter : Option (List ClientFilter)
  callsign : Option (List Char)
  packets_rx : Nat
  packets_tx : Nat
  bytes_rx : Nat
  bytes_tx : Nat
deriving DecidableEq

/-- Embedding of `Client::new`. -/
def Client.new (id : Nat) : Client :=
  { cid := id, stream := [], filter := none, callsign := none,
    packets_rx := 0, packets_tx := 0, bytes_rx := 0, bytes_tx := 0 }

/-- Embedding of `Client::inc_rx`. -/
def Client.inc_rx (c : Client) (bytes : Nat) : Client :=
  { c with packets_rx := c.packets_rx + 1, bytes_rx := c.bytes_rx + bytes }

/-- Embedding of `Client::inc_tx`. -/
def Client.inc_tx (c : Client) (bytes : Nat) : Client :=
  { c with packets_tx := c.packets_tx + 1, bytes_tx := c.bytes_tx + bytes }

/-- Embedding of `S2SPeerHandle` (src/hub.rs lines 8-11): the unbounded
mpsc sender is modelled as `sent`, the queue of packets enqueued on the
handle. -/
structure S2SPeerHandle where
  peer_name : Option (List Char)
  sent : List (List Char)
deriving DecidableEq

/-- Embedding of `Hub` (src/hub.rs lines 13-25).  The `HashMap` of
clients is an association list with unique keys; `start_time` (wall
clock) and the observability-only `s2s_peers` status list are not
modelled; the dedup `HashSet` is a `Finset` of fingerprints and the
`VecDeque` a list with its front at the head. -/
structure Hub where
  clients : List (Nat × Client)
  next_id : Nat
  total_packets_rx : Nat
  total_packets_tx : Nat
  total_bytes_rx : Nat
  total_bytes_tx : Nat
  s2s_peer_handles : List S2SPeerHandle
  dupe_cache : Finset (List Char)
  dupe_order : List (List Char)
deriving DecidableEq

/-- Embedding of `Hub::new`. -/
def Hub.new : Hub :=
  { clients := [], next_id := 1, total_packets_rx := 0, total_packets_tx := 0,
    total_bytes_rx := 0, total_bytes_tx := 0, s2s_peer_handles := [],
    dupe_cache := ∅, dupe_order := [] }

/-- Embedding of `Hub::add_client` (src/hub.rs lines 86-91): insert under
`next_id`, bump `next_id`, return the assigned id. -/
def Hub.add_client (h : Hub) (c : Client) : Hub × Nat :=
  ({ h with clients := h.clients ++ [(h.next_id, c)], next_id := h.next_id + 1 },
    h.next_id)

/-- Embedding of `Hub::remove_client` (src/hub.rs lines 92-94):
`HashMap::remove` of the unique entry with this key. -/
def Hub.remove_client (h : Hub) (id : Nat) : Hub :=
  { h with clients := h.clients.filter (fun kv => kv.1 ≠ id) }

/-- Embedding of `Hub::update_client` (src/hub.rs lines 95-106): when the
id is present, replace that client's callsign and filter fields. -/
def Hub.update_client (h : Hub) (id : Nat) (callsign : Option (List Char))
    (filter : Option (List ClientFilter)) : Hub :=
  { h with clients := h.clients.map (fun kv =>
      if kv.1 = id then (kv.1, { kv.2 with callsign := callsign, filter := filter })
      else kv) }

/-- Embedding of `Hub::broadcast_packet` (src/hub.rs lines 134-143):
write the packet to the stream of every client whose id differs from
`sender_id`. -/
def Hub.broadcast_packet (h : Hub) (sender_id : Nat) (packet : List Char) : Hub :=
  { h with clients := h.clients.map (fun kv =>
      if kv.1 ≠ sender_id then (kv.1, { kv.2 with stream := kv.2.stream ++ [packet] })
      else kv) }

/-- Embedding of `Hub::check_and_insert_dupe` (src/hub.rs lines 144-157):
a cache hit returns `true`; otherwise insert the fingerprint into the set
and the back of the deque, and when the deque exceeds 1000 entries pop
its front and remove that fingerprint from the set, returning `false`. -/
def Hub.check_and_insert_dupe (h : Hub) (packet : List Char) : Bool × Hub :=
  let hash := seahash_hash packet
  if hash ∈ h.dupe_cache then (true, h)
  else
    let cache := insert hash h.dupe_cache
    let order := h.dupe_order ++ [hash]
    if 1000 < order.length then
      match order with
      | [] => (false, { h with dupe_cache := cache, dupe_order := [] })
      | old :: rest => (false, { h with dupe_cache := cache.erase old, dupe_order := rest })
    else (false, { h with dupe_cache := cache, dupe_order := order })

/-- Embedding of `Hub::broadcast_to_s2s_peers` (src/hub.rs lines
158-167): enqueue the packet on every handle, skipping a handle exactly
when it has a `peer_name` and the sender name is present and equal. -/
def Hub.broadcast_to_s2s_peers (h : Hub) (sender : Option (List Char))
    (packet : List Char) : Hub :=
  { h with s2s_peer_handles := h.s2s_peer_handles.map (fun hd =>
      match hd.peer_name, sender with
      | some name, some sn =>
        if name = sn then hd else { hd with sent := hd.sent ++ [packet] }
      | _, _ => { hd with sent := hd.sent ++ [packet] }) }

/-- Per-session state of `handle_client`'s main loop (src/server.rs
lines 100-108): the session's own duplicate cache (capacity 100), filter
list, callsign and counters. -/
structure Session where
  sid : Nat
  filters : Option (List ClientFilter)
  callsign : Option (List Char)
  dup_cache : Finset (List Char)
  dup_order : List (List Char)
  packets_received : Nat
  packets_dropped : Nat
  packets_duplicated : Nat
deriving DecidableEq

/-- The per-client RX increment of src/server.rs lines 199-202: bump the
rx counters of the client registered under `id` (the key is unique in
the map). -/
def hubIncRx (h : Hub) (id n : Nat) : Hub :=
  { h with clients := h.clients.map (fun kv =>
      if kv.1 = id then (kv.1, kv.2.inc_rx n) else kv) }

/-- The receiver TX increments of src/server.rs lines 223-229: bump the
tx counters of every client other than `id`. -/
def hubIncTxOthers (h : Hub) (id n : Nat) : Hub :=
  { h with clients := h.clients.map (fun kv =>
      if kv.1 ≠ id then (kv.1, kv.2.inc_tx n) else kv) }

/-- Embedding of the packet arm of `handle_client`'s main loop
(src/server.rs lines 197-243), the path taken by a line that is neither a
`# filter` nor a `# stats` command: count it, bump the client's RX
counters, check the per-session dedup cache (capacity 100, FIFO) and on a
hit only count the duplicate; otherwise insert, evaluate the session's
own filter list against the trimmed line (any-match; permissive when no
filters are set), and when it passes bump every other client's TX
counters and broadcast the raw line, else count it dropped; finally
store the session's callsign and filters into the hub entry.  The
message-destination extraction on this path only logs and is not
modelled. -/
def processPacket (geo : ClientFilter → List Char → Bool) (hub : Hub) (s : Session)
    (line : List Char) : Hub × Session :=
  let n := line.length
  let trimmed := rustTrim line
  let s1 := { s with packets_received := s.packets_received + 1 }
  let hub1 := hubIncRx hub s.sid n
  let fp := seahash_hash trimmed
  if fp ∈ s.dup_cache then
    (hub1, { s1 with packets_duplicated := s1.packets_duplicated + 1 })
  else
    let dc := insert fp s.dup_cache
    let dord := s.dup_order ++ [fp]
    let dcd : Finset (List Char) × List (List Char) :=
      if 100 < dord.length then
        match dord with
        | [] => (dc, [])
        | old :: rest => (dc.erase old, rest)
      else (dc, dord)
    let s2 := { s1 with dup_cache := dcd.1, dup_order := dcd.2 }
    let pass := match s.filters with
      | some fs => fs.any (fun f => f.matches geo trimmed)
      | none => true
    let hub2 := if pass then (hubIncTxOthers hub1 s.sid n).broadcast_packet s.sid line
      else hub1
    let s3 := if pass then s2 else { s2 with packets_dropped := s2.packets_dropped + 1 }
    let hub3 := hub2.update_client s.sid s.callsign s.filters
    (hub3, s3)

/-- Result of the login phase of `handle_client`: the hub afterwards, the
chunks written back to this connection, and whether the session proceeds
to the main loop (`false` models the early `return`s that close the
connection). -/
structure LoginOutcome where
  hub : Hub
  written : List (List Char)
  logged_in : Bool
deriving DecidableEq

/-- Embedding of the login phase of `handle_client` (src/server.rs lines
110-158) for a connection whose login line was read successfully: the
client is registered in the hub first (lines 110-115), then the line is
tokenized; with both a callsign and a passcode present, a passcode that
fails to parse as `u16` or differs from `aprs_passcode(callsign)` gets
`# invalid passcode\n` and closes, a matching one gets `# login ok\n`;
without both tokens the reply is `# invalid login\n`.  None of the early
returns removes the registered client. -/
def handleLogin (hub : Hub) (line : List Char) : LoginOutcome :=
  let reg := hub.add_client (Client.new hub.next_id)
  let hub1 := reg.1
  let cp := scanLogin (splitWs (rustTrim line)) none none
  match cp.1, cp.2 with
  | some cs, some pw =>
    match rustU16Parse pw with
    | some n =>
      if aprs_passcode cs = n then
        { hub := hub1, written := ["# login ok\n".toList], logged_in := true }
      else
        { hub := hub1, written := ["# invalid passcode\n".toList], logged_in := false }
    | none =>
      { hub := hub1, written := ["# invalid passcode\n".toList], logged_in := false }
  | _, _ =>
    { hub := hub1, written := ["# invalid login\n".toList], logged_in := false }

/-- The counters of `UplinkStatus` (src/uplink.rs lines 8-24); the
timestamp fields (wall clock) and `last_error` are not modelled. -/
structure UplinkStatusM where
  packets_rx : Nat
  packets_tx : Nat
  bytes_rx : Nat
  bytes_tx : Nat
  connect_errors : Nat
  read_errors : Nat
  write_errors : Nat
deriving DecidableEq

/-- Embedding of the `Ok(n)` arm of the uplink read loop
(src/uplink.rs lines 87-93), executed for every line received from the
upstream server: it increments the status RX counters and prints the
line.  The surrounding function's hub parameter (named `_hub` in the
source) is never used, so the hub passes through unchanged. -/
def uplinkRxStep (hub : Hub) (st : UplinkStatusM) (line : List Char) :
    Hub × UplinkStatusM :=
  (hub, { st with packets_rx := st.packets_rx + 1, bytes_rx := st.bytes_rx + line.length })

/-- Iterate `Hub.check_and_insert_dupe` over a list of packets, returning
the final hub and the list of returned booleans. -/
def runDupes : Hub → List (List Char) → Hub × List Bool
  | h, [] => (h, [])
  | h, p :: ps =>
    let r := Hub.check_and_insert_dupe h p
    let rest := runDupes r.2 ps
    (rest.1, r.1 :: rest.2)

/-- Concrete hub for the fan-out scenarios: client 1 holds no filters,
client 2 holds a single filter `p/ZZZ`. -/
def exHubC1 : Hub :=
  { Hub.new with
      clients := [(1, Client.new 1),
                  (2, { Client.new 2 with filter := some [ClientFilter.Prefix ("ZZZ".toList)] })],
      next_id := 3 }

/-- Concrete session state of client 1 of `exHubC1` (no filters set). -/
def exSessC1 : Session :=
  { sid := 1, filters := none, callsign := none, dup_cache := ∅, dup_order := [],
    packets_received := 0, packets_dropped := 0, packets_duplicated := 0 }

/-- Concrete hub for the uplink scenario: one client with filter `p/UP`. -/
def exHubC3 : Hub :=
  { Hub.new with
      clients := [(1, { Client.new 1 with filter := some [ClientFilter.Prefix ("UP".toList)] })],
      next_id := 2 }

/-- Fresh uplink status counters. -/
def exUplinkStatus : UplinkStatusM :=
  { packets_rx := 0, packets_tx := 0, bytes_rx := 0, bytes_tx := 0,
    connect_errors := 0, read_errors := 0, write_errors := 0 }

/-- A hub holding a single registered client under id 1. -/
def exHubOne : Hub := (Hub.new.add_client (Client.new 1)).1

/-- A hub holding two S2S peer handles, one named `alpha`, one unnamed. -/
def exHubPeers : Hub :=
  { Hub.new with
      s2s_peer_handles := [{ peer_name := some ("alpha".toList), sent := [] },
                           { peer_name := none, sent := [] }] }

end Aprsserver

namespace Aprsserver

/-! Helper lemmas shared by the claim theorems. -/

/-- Value of `Char.ofNat` at a valid scalar. -/
theorem toNat_ofNat_valid (n : Nat) (h : n.isValidChar) : (Char.ofNat n).toNat = n := by
  unfold Char.ofNat
  rw [dif_pos h]
  rfl

/-- ASCII upper-casing is idempotent. -/
theorem asciiUpper_idem (c : Char) : asciiUpper (asciiUpper c) = asciiUpper c := by
  by_cases h : 97 ≤ c.toNat ∧ c.toNat ≤ 122
  · have hv : (c.toNat - 32).isValidChar := Or.inl (by omega)
    have ht : (Char.ofNat (c.toNat - 32)).toNat = c.toNat - 32 := toNat_ofNat_valid _ hv
    simp only [asciiUpper, if_pos h, ht]
    rw [if_neg (by omega)]
  · simp only [asciiUpper, if_neg h]

/-- ASCII upper-casing maps no character onto `-` except `-` itself. -/
theorem asciiUpper_eq_dash_iff (c : Char) : asciiUpper c = '-' ↔ c = '-' := by
  by_cases h : 97 ≤ c.toNat ∧ c.toNat ≤ 122
  · constructor
    · intro he
      exfalso
      have hn := congrArg Char.toNat he
      rw [asciiUpper, if_pos h, toNat_ofNat_valid _ (Or.inl (by omega))] at hn
      have h45 : ('-').toNat = 45 := rfl
      rw [h45] at hn
      omega
    · intro he
      exfalso
      rw [he] at h
      exact absurd h (by decide)
  · rw [asciiUpper, if_neg h]

/-- The Boolean dash test commutes with ASCII upper-casing. -/
theorem dash_test_asciiUpper (c : Char) :
    (decide (asciiUpper c ≠ '-')) = (decide (c ≠ '-')) := by
  apply decide_eq_decide.mpr
  constructor
  · intro hne he
    exact hne ((asciiUpper_eq_dash_iff c).mpr he)
  · intro hne he
    exact hne ((asciiUpper_eq_dash_iff c).mp he)

/-- `takeWhile` ignores everything from the first appended element the
predicate rejects. -/
theorem takeWhile_append_of_stop {α : Type} (p : α → Bool) (d : α) (hd : p d = false)
    (a b : List α) : (a ++ d :: b).takeWhile p = a.takeWhile p := by
  induction a with
  | nil => simp [List.takeWhile_cons, hd]
  | cons x t ih =>
    simp only [List.cons_append, List.takeWhile_cons, ih]

/-- The passcode accumulator loop is the indexed fold used by the
specification-side algorithm. -/
theorem passcodeLoop_enumFrom (l : List Char) : ∀ (i hash : Nat),
    passcodeLoop l i hash
      = (l.enumFrom i).foldl
          (fun h ic =>
            if ic.1 % 2 = 0 then h ^^^ ((ic.2.toNat % 256) <<< 8)
            else h ^^^ (ic.2.toNat % 256))
          hash := by
  induction l with
  | nil => intro i hash; rfl
  | cons c rest ih =>
    intro i hash
    rw [show List.enumFrom i (c :: rest) = (i, c) :: List.enumFrom (i + 1) rest from rfl]
    rw [List.foldl_cons]
    exact ih (i + 1) _

/-- A map that fixes every element of a list fixes the list. -/
theorem map_eq_self_of_forall {α : Type} (l : List α) (f : α → α)
    (hf : ∀ a ∈ l, f a = a) : l.map f = l := by
  induction l with
  | nil => rfl
  | cons x t ih =>
    rw [List.map_cons, hf x (by simp), ih (fun a ha => hf a (by simp [ha]))]

/-- An absent key in an association list differs from every stored key. -/
theorem lookup_none_forall {β : Type} (id : Nat) (l : List (Nat × β))
    (h : List.lookup id l = none) : ∀ kv ∈ l, kv.1 ≠ id := by
  induction l with
  | nil => intro kv hkv; cases hkv
  | cons x t ih =>
    intro kv hkv
    rw [List.lookup] at h
    cases hbeq : (id == x.1) with
    | true =>
      rw [hbeq] at h
      simp at h
    | false =>
      rw [hbeq] at h
      simp only [] at h
      have hne : id ≠ x.1 := by
        intro he
        rw [he] at hbeq
        simp at hbeq
      rw [List.mem_cons] at hkv
      rcases hkv with rfl | hkv2
      · exact fun he => hne he.symm
      · exact ih h kv hkv2

/-- Claim C5: for every callsign, the passcode is invariant under
upper-casing and under appending a `-SSID` suffix, is at most `0x7FFF`,
and coincides with the reference accumulator algorithm of the
specification (`passcodeSpec`). -/
theorem C5_passcode_properties (cs ssid : List Char) :
    aprs_passcode (cs.map asciiUpper) = aprs_passcode cs
    ∧ aprs_passcode (cs ++ '-' :: ssid) = aprs_passcode cs
    ∧ aprs_passcode cs ≤ 0x7fff
    ∧ aprs_passcode cs = passcodeSpec cs := by
  refine ⟨?_, ?_, ?_, ?_⟩
  · unfold aprs_passcode
    rw [List.map_map, show asciiUpper ∘ asciiUpper = asciiUpper from funext asciiUpper_idem]
  · unfold aprs_passcode
    rw [List.map_append, List.map_cons,
      show asciiUpper '-' = '-' from by decide,
      takeWhile_append_of_stop _ '-' (by decide)]
  · exact Nat.and_le_right
  · simp only [aprs_passcode, passcodeSpec]
    rw [List.takeWhile_map,
      show ((fun c => decide (c ≠ '-')) ∘ asciiUpper) = (fun c => decide (c ≠ '-'))
        from funext dash_test_asciiUpper,
      passcodeLoop_enumFrom]
    rfl

/-- Claim C6 counterexample: on `":a>b:c"` (already trimmed), the
character `>` occurs at position 2 > 0 and a later `:` occurs at
position 4 > 2 + 1, which the claim's existential reading accepts, yet
the validator rejects the line because it compares the first
occurrences. -/
theorem C6_counterexample :
    is_valid_aprs_packet (":a>b:c".toList) = false
    ∧ rustTrim (":a>b:c".toList) = ":a>b:c".toList
    ∧ ((":a>b:c".toList)[2]? = some '>' ∧ 0 < 2)
    ∧ ((":a>b:c".toList)[4]? = some ':' ∧ 2 + 1 < 4) := by
  refine ⟨by decide, by decide, ⟨by decide, by decide⟩, ⟨by decide, by decide⟩⟩

/-- Claim C6 (amended): the frame validator accepts a line iff, after
trimming, the FIRST `>` sits at a position `gt > 0` and the FIRST `:`
sits at a position `colon > gt + 1`; in particular every empty or
all-whitespace line is rejected. -/
theorem C6_frame_validator (l : List Char) :
    is_valid_aprs_packet l = true ↔
      (∃ gt colon : Nat,
        strFind (fun c => c = '>') (rustTrim l) = some gt ∧ 0 < gt ∧
        strFind (fun c => c = ':') (rustTrim l) = some colon ∧ gt + 1 < colon) := by
  simp only [is_valid_aprs_packet]
  by_cases he : (rustTrim l).isEmpty
  · rw [if_pos he]
    have hnil : rustTrim l = [] := List.isEmpty_iff.mp he
    rw [hnil]
    simp [strFind]
  · rw [if_neg he]
    cases hgt : strFind (fun c => c = '>') (rustTrim l) with
    | none => simp [hgt]
    | some gt =>
      cases hco : strFind (fun c => c = ':') (rustTrim l) with
      | none => simp [hgt, hco]
      | some colon => simp [hgt, hco]

/-- Claim C9: the degenerate tokens `p/`, `t/`, `o/` parse to the
empty-argument `Prefix`, `Typ` and `Object` filters; the empty `Prefix`
and `Object` filters match every packet, and the empty `Typ` filter
matches exactly the packets containing a `:`. -/
theorem C9_degenerate_filters :
    ClientFilter.from_str ("p/".toList) = Except.ok (ClientFilter.Prefix [])
    ∧ ClientFilter.from_str ("t/".toList) = Except.ok (ClientFilter.Typ [])
    ∧ ClientFilter.from_str ("o/".toList) = Except.ok (ClientFilter.Object [])
    ∧ (∀ geo packet, ClientFilter.matches geo (ClientFilter.Prefix []) packet = true)
    ∧ (∀ geo packet, ClientFilter.matches geo (ClientFilter.Object []) packet = true)
    ∧ (∀ geo packet, ClientFilter.matches geo (ClientFilter.Typ []) packet
          = (strFind (fun c => c = ':') packet).isSome) := by
  refine ⟨rfl, rfl, rfl, fun geo packet => ?_, fun geo packet => ?_, fun geo packet => ?_⟩
  · show List.isPrefixOf [] (packet.map asciiUpper) = true
    rw [ List.isPrefixOf_iff_prefix]
    exact List.nil_prefix
  · show decide ([] <:+: packet) = true
    exact decide_eq_true List.nil_infix
  · simp only [ClientFilter.matches]
    cases h : strFind (fun c => c = ':') packet with
    | none => simp [h]
    | some colon => simp [h, List.isPrefixOf_iff_prefix, List.nil_prefix]

/-- Claim C10: calling `update_client` or `remove_client` with an id
absent from the client map leaves the hub unchanged. -/
theorem C10_absent_id_noop (h : Hub) (id : Nat) (cs : Option (List Char))
    (fl : Option (List ClientFilter)) (habs : List.lookup id h.clients = none) :
    h.update_client id cs fl = h ∧ h.remove_client id = h := by
  have hkeys := lookup_none_forall id h.clients habs
  constructor
  · unfold Hub.update_client
    have hm : (h.clients.map fun kv =>
        if kv.1 = id then (kv.1, { kv.2 with callsign := cs, filter := fl }) else kv)
        = h.clients := by
      apply map_eq_self_of_forall
      intro kv hkv
      rw [if_neg (hkeys kv hkv)]
    rw [hm]
  · unfold Hub.remove_client
    have hf : h.clients.filter (fun kv => kv.1 ≠ id) = h.clients := by
      rw [List.filter_eq_self]
      intro kv hkv
      simpa using hkeys kv hkv
    rw [hf]

/-- Witness for claim C10: a hub with one client under id 1, probed at
the absent id 5. -/
theorem C10_witness :
    List.lookup 5 exHubOne.clients = none
    ∧ (exHubOne.update_client 5 none none = exHubOne
        ∧ exHubOne.remove_client 5 = exHubOne) :=
  ⟨rfl, C10_absent_id_noop exHubOne 5 none none rfl⟩

/-- Claim C8: `broadcast_to_s2s_peers` enqueues the packet on every
handle except exactly those whose `peer_name` is present and equal to
the sender name; the enqueue appends the packet to the handle's
outbound queue. -/
theorem C8_s2s_echo_suppression (h : Hub) (sender : Option (List Char))
    (packet : List Char) :
    (h.broadcast_to_s2s_peers sender packet).s2s_peer_handles
      = h.s2s_peer_handles.map (fun hd =>
          if hd.peer_name ≠ none ∧ hd.peer_name = sender then hd
          else { hd with sent := hd.sent ++ [packet] }) := by
  simp only [Hub.broadcast_to_s2s_peers]
  apply List.map_congr_left
  intro hd _
  cases hpn : hd.peer_name with
  | none =>
    cases sender <;> simp [hpn]
  | some nm =>
    cases sender with
    | none => simp [hpn]
    | some sn =>
      by_cases hnm : nm = sn <;> simp [hpn, hnm]

/-- Claim C2 (code-bug evaluation): a login line with an unacceptable
passcode gets `# invalid passcode\n` and the session ends, but the
client registered at accept time remains in the hub's map, which is no
longer the pre-session (empty) map. -/
theorem C2_invalid_passcode_leaves_client :
    (handleLogin Hub.new ("user N0CALL pass 99999 vers test\n".toList)).written
        = ["# invalid passcode\n".toList]
    ∧ (handleLogin Hub.new ("user N0CALL pass 99999 vers test\n".toList)).logged_in = false
    ∧ (handleLogin Hub.new ("user N0CALL pass 99999 vers test\n".toList)).hub.clients
        = [(1, Client.new 1)]
    ∧ Hub.new.clients = [] :=
  ⟨rfl, rfl, rfl, rfl⟩

/-- Claim C3 (code-bug evaluation): the uplink read-loop arm leaves the
hub — including the stream of a client whose `p/UP` filter matches the
received packet — completely unchanged, while only the status counters
advance; the fan-out the claim describes never happens. -/
theorem C3_uplink_ignores_hub :
    (uplinkRxStep exHubC3 exUplinkStatus ("UP>APRS:x\n".toList)).1 = exHubC3
    ∧ ((uplinkRxStep exHubC3 exUplinkStatus ("UP>APRS:x\n".toList)).1.clients.map
          (fun kv => kv.2.stream)) = [[]]
    ∧ (uplinkRxStep exHubC3 exUplinkStatus ("UP>APRS:x\n".toList)).2.packets_rx = 1
    ∧ ClientFilter.matches (fun _ _ => false) (ClientFilter.Prefix ("UP".toList))
        (rustTrim ("UP>APRS:x\n".toList)) = true :=
  ⟨rfl, rfl, rfl, by decide⟩

/-- The first component of `check_and_insert_dupe` is exactly the cache
membership test. -/
theorem check_and_insert_dupe_fst (h : Hub) (p : List Char) :
    (h.check_and_insert_dupe p).1 = decide (seahash_hash p ∈ h.dupe_cache) := by
  by_cases hm : seahash_hash p ∈ h.dupe_cache
  · simp [Hub.check_and_insert_dupe, hm]
  · simp only [Hub.check_and_insert_dupe, if_neg hm]
    rw [decide_eq_false hm]
    split
    · split <;> rfl
    · rfl

/-- A fresh fingerprint inserted while the deque is below capacity:
no eviction. -/
theorem check_fresh_no_evict (h : Hub) (p : List Char)
    (hfp : seahash_hash p ∉ h.dupe_cache) (hl : h.dupe_order.length < 1000) :
    h.check_and_insert_dupe p
      = (false, { h with dupe_cache := insert (seahash_hash p) h.dupe_cache,
                         dupe_order := h.dupe_order ++ [seahash_hash p] }) := by
  simp only [Hub.check_and_insert_dupe, if_neg hfp]
  rw [if_neg (by simp only [List.length_append, List.length_cons, List.length_nil]; omega)]

/-- A fresh fingerprint inserted while the deque is at capacity: the
front fingerprint is evicted from both structures. -/
theorem check_fresh_evict (h : Hub) (p : List Char)
    (hfp : seahash_hash p ∉ h.dupe_cache) (old : List Char) (rest0 : List (List Char))
    (hord : h.dupe_order = old :: rest0) (hlen : rest0.length = 999) :
    h.check_and_insert_dupe p
      = (false, { h with dupe_cache := (insert (seahash_hash p) h.dupe_cache).erase old,
                         dupe_order := rest0 ++ [seahash_hash p] }) := by
  simp only [Hub.check_and_insert_dupe, if_neg hfp]
  rw [hord, List.cons_append,
    if_pos (by simp only [List.length_cons, List.length_append, List.length_nil]; omega)]

/-- Invariant of iterated fresh insertions into the dedup cache: the set
mirrors the deque, the deque stays duplicate-free, its contents are the
last (at most 1000) fingerprints in arrival order, and every call
returns `false`. -/
theorem runDupes_spec (ps : List (List Char)) : ∀ (h : Hub),
    h.dupe_cache = h.dupe_order.toFinset →
    h.dupe_order.Nodup →
    h.dupe_order.length ≤ 1000 →
    (∀ p ∈ ps, seahash_hash p ∉ h.dupe_order) →
    (ps.map seahash_hash).Nodup →
    (runDupes h ps).1.dupe_order
        = (h.dupe_order ++ ps.map seahash_hash).drop
            (h.dupe_order.length + ps.length - 1000)
    ∧ (runDupes h ps).1.dupe_cache = (runDupes h ps).1.dupe_order.toFinset
    ∧ (runDupes h ps).1.dupe_order.Nodup
    ∧ (runDupes h ps).2 = List.replicate ps.length false := by
  induction ps with
  | nil =>
    intro h hc hnd hlen _ _
    refine ⟨?_, hc, hnd, rfl⟩
    simp only [runDupes, List.map_nil, List.append_nil, List.length_nil, Nat.add_zero]
    rw [Nat.sub_eq_zero_of_le hlen, List.drop_zero]
  | cons p ps ih =>
    intro h hc hnd hlen hfresh hmnd
    have hfo : seahash_hash p ∉ h.dupe_order := hfresh p (by simp)
    have hfc : seahash_hash p ∉ h.dupe_cache := by
      rw [hc, List.mem_toFinset]
      exact hfo
    rw [List.map_cons] at hmnd
    have hmnd_tail : (ps.map seahash_hash).Nodup := hmnd.of_cons
    have hpnotin : seahash_hash p ∉ ps.map seahash_hash := (List.nodup_cons.mp hmnd).1
    by_cases hL : h.dupe_order.length < 1000
    · obtain ⟨h2, hh2⟩ : ∃ h2 : Hub,
          h2 = { h with dupe_cache := insert (seahash_hash p) h.dupe_cache,
                        dupe_order := h.dupe_order ++ [seahash_hash p] } := ⟨_, rfl⟩
      have hstep : h.check_and_insert_dupe p = (false, h2) := by
        rw [hh2]
        exact check_fresh_no_evict h p hfc hL
      have hord2 : h2.dupe_order = h.dupe_order ++ [seahash_hash p] := by rw [hh2]
      have hcache2 : h2.dupe_cache = insert (seahash_hash p) h.dupe_cache := by rw [hh2]
      have hc2 : insert (seahash_hash p) h.dupe_cache
          = (h.dupe_order ++ [seahash_hash p]).toFinset := by
        rw [List.toFinset_append, hc,
          show ([seahash_hash p] : List (List Char)).toFinset = {seahash_hash p} from rfl,
          Finset.insert_eq]
        exact Finset.union_comm _ _
      have hnd2 : (h.dupe_order ++ [seahash_hash p]).Nodup := by
        rw [List.nodup_append]
        refine ⟨hnd, List.nodup_singleton _, ?_⟩
        intro a ha hb
        rw [List.mem_singleton] at hb
        exact hfo (hb ▸ ha)
      have hlen2 : (h.dupe_order ++ [seahash_hash p]).length ≤ 1000 := by
        simp only [List.length_append, List.length_cons, List.length_nil]
        omega
      have hfresh2 : ∀ q ∈ ps, seahash_hash q ∉ h.dupe_order ++ [seahash_hash p] := by
        intro q hq hmem
        rw [List.mem_append, List.mem_singleton] at hmem
        rcases hmem with hm1 | hm2
        · exact hfresh q (by simp [hq]) hm1
        · exact hpnotin (hm2 ▸ List.mem_map_of_mem seahash_hash hq)
      obtain ⟨ih1, ih2, ih3, ih4⟩ :=
        ih h2 (by rw [hcache2, hord2]; exact hc2) (by rw [hord2]; exact hnd2)
          (by rw [hord2]; exact hlen2)
          (fun q hq => by rw [hord2]; exact hfresh2 q hq) hmnd_tail
      simp only [runDupes, hstep]
      try dsimp only
      refine ⟨?_, ih2, ih3, ?_⟩
      · rw [ih1, hord2, List.map_cons, List.append_assoc, List.singleton_append]
        rw [show (h.dupe_order ++ [seahash_hash p]).length + ps.length - 1000
              = h.dupe_order.length + (p :: ps).length - 1000 from by
            simp only [List.length_append, List.length_cons, List.length_nil]
            omega]
      · rw [ih4, List.length_cons, List.replicate_succ]
    · have hL1000 : h.dupe_order.length = 1000 := by omega
      cases hord : h.dupe_order with
      | nil =>
        rw [hord] at hL1000
        simp at hL1000
      | cons old rest0 =>
        have h999 : rest0.length = 999 := by
          rw [hord] at hL1000
          simp only [List.length_cons] at hL1000
          omega
        have hndc : (old :: rest0).Nodup := hord ▸ hnd
        have hold_notin : old ∉ rest0 := (List.nodup_cons.mp hndc).1
        have hfoc : seahash_hash p ∉ old :: rest0 := hord ▸ hfo
        have hfp_ne_old : seahash_hash p ≠ old := by
          intro he
          exact hfoc (by rw [he]; exact List.mem_cons_self _ _)
        have hfp_notin_rest : seahash_hash p ∉ rest0 := by
          intro he
          exact hfoc (List.mem_cons_of_mem _ he)
        obtain ⟨h2, hh2⟩ : ∃ h2 : Hub,
            h2 = { h with dupe_cache := (insert (seahash_hash p) h.dupe_cache).erase old,
                          dupe_order := rest0 ++ [seahash_hash p] } := ⟨_, rfl⟩
        have hstep : h.check_and_insert_dupe p = (false, h2) := by
          rw [hh2]
          exact check_fresh_evict h p hfc old rest0 hord h999
        have hord2 : h2.dupe_order = rest0 ++ [seahash_hash p] := by rw [hh2]
        have hcache2 : h2.dupe_cache = (insert (seahash_hash p) h.dupe_cache).erase old := by
          rw [hh2]
        have hc2 : (insert (seahash_hash p) h.dupe_cache).erase old
            = (rest0 ++ [seahash_hash p]).toFinset := by
          ext x
          rw [hc, hord]
          simp only [Finset.mem_erase, Finset.mem_insert, List.mem_toFinset,
            List.mem_cons, List.mem_append, List.mem_singleton, List.not_mem_nil,
            or_false]
          constructor
          · rintro ⟨hxo, rfl | (rfl | hx)⟩
            · exact Or.inr rfl
            · exact absurd rfl hxo
            · exact Or.inl hx
          · rintro (hx | rfl)
            · exact ⟨fun he => hold_notin (he ▸ hx), Or.inr (Or.inr hx)⟩
            · exact ⟨hfp_ne_old, Or.inl rfl⟩
        have hnd2 : (rest0 ++ [seahash_hash p]).Nodup := by
          rw [List.nodup_append]
          refine ⟨(List.nodup_cons.mp hndc).2, List.nodup_singleton _, ?_⟩
          intro a ha hb
          rw [List.mem_singleton] at hb
          exact hfp_notin_rest (hb ▸ ha)
        have hlen2 : (rest0 ++ [seahash_hash p]).length ≤ 1000 := by
          simp only [List.length_append, List.length_cons, List.length_nil]
          omega
        have hfresh2 : ∀ q ∈ ps, seahash_hash q ∉ rest0 ++ [seahash_hash p] := by
          intro q hq hmem
          rw [List.mem_append, List.mem_singleton] at hmem
          rcases hmem with hm1 | hm2
          · exact hfresh q (by simp [hq]) (hord ▸ List.mem_cons_of_mem _ hm1)
          · exact hpnotin (hm2 ▸ List.mem_map_of_mem seahash_hash hq)
        obtain ⟨ih1, ih2, ih3, ih4⟩ :=
          ih h2 (by rw [hcache2, hord2]; exact hc2) (by rw [hord2]; exact hnd2)
            (by rw [hord2]; exact hlen2)
            (fun q hq => by rw [hord2]; exact hfresh2 q hq) hmnd_tail
        simp only [runDupes, hstep]
        try dsimp only
        refine ⟨?_, ih2, ih3, ?_⟩
        · rw [ih1, hord2]
          have e1 : (rest0 ++ [seahash_hash p]).length + ps.length - 1000 = ps.length := by
            simp only [List.length_append, List.length_cons, List.length_nil]
            omega
          have e2 : (old :: rest0).length + (p :: ps).length - 1000 = ps.length + 1 := by
            simp only [List.length_cons]
            omega
          rw [e1, List.map_cons, e2, List.cons_append, List.drop_succ_cons,
            List.append_assoc, List.singleton_append]
        · rw [ih4, List.length_cons, List.replicate_succ]

/-- Claim C4: after N pairwise-distinct insertions from a fresh hub, the
set and the deque agree, both hold `min N 1000` fingerprints, the deque
is the FIFO suffix of the arrival order, every call returned `false`,
and a repeat call returns `true` exactly while the fingerprint is still
resident.  (The external seahash fingerprint is modelled collision-free,
see `seahash_hash`.) -/
theorem C4_dedup_cache_fifo (ps : List (List Char)) (hnd : ps.Nodup) :
    (runDupes Hub.new ps).1.dupe_order = (ps.map seahash_hash).drop (ps.length - 1000)
    ∧ (runDupes Hub.new ps).1.dupe_cache = (runDupes Hub.new ps).1.dupe_order.toFinset
    ∧ (runDupes Hub.new ps).1.dupe_order.length = min ps.length 1000
    ∧ (runDupes Hub.new ps).1.dupe_cache.card = min ps.length 1000
    ∧ (runDupes Hub.new ps).2 = List.replicate ps.length false
    ∧ ∀ p, ((runDupes Hub.new ps).1.check_and_insert_dupe p).1
          = decide (seahash_hash p ∈ (runDupes Hub.new ps).1.dupe_order) := by
  have hmnd : (ps.map seahash_hash).Nodup := by
    have hmap : ps.map seahash_hash = ps := by
      rw [show (seahash_hash : List Char → List Char) = id from rfl, List.map_id]
    rw [hmap]
    exact hnd
  obtain ⟨h1, h2, h3, h4⟩ :=
    runDupes_spec ps Hub.new rfl List.nodup_nil (by simp [Hub.new])
      (fun p _ => by simp [Hub.new]) hmnd
  rw [show Hub.new.dupe_order = ([] : List (List Char)) from rfl,
    List.nil_append, List.length_nil, Nat.zero_add] at h1
  refine ⟨h1, h2, ?_, ?_, h4, ?_⟩
  · rw [h1, List.length_drop, List.length_map]
    omega
  · rw [h2, List.toFinset_card_of_nodup h3, h1, List.length_drop, List.length_map]
    omega
  · intro p
    rw [check_and_insert_dupe_fst]
    refine decide_eq_decide.mpr ?_
    rw [h2]
    exact List.mem_toFinset

/-- Witness for claim C4: the invariant applied to a concrete run with
two distinct packets. -/
theorem C4_witness :
    (runDupes Hub.new ["ab".toList, "cd".toList]).1.dupe_order
      = (["ab".toList, "cd".toList].map seahash_hash).drop
          (["ab".toList, "cd".toList].length - 1000) :=
  (C4_dedup_cache_fifo ["ab".toList, "cd".toList] (by decide)).1

/-- Claim C1 counterexample: client 1 (no filters) ingests a packet;
client 2, whose single filter `p/ZZZ` does NOT match the packet, still
receives it on its stream — the fan-out ignores the recipients'
filters. -/
theorem C1_counterexample :
    (List.lookup 2 (processPacket (fun _ _ => false) exHubC1 exSessC1
          ("A>B:hi\n".toList)).1.clients).map Client.stream
        = some [("A>B:hi\n".toList)]
    ∧ ClientFilter.matches (fun _ _ => false) (ClientFilter.Prefix ("ZZZ".toList))
        (rustTrim ("A>B:hi\n".toList)) = false
    ∧ (List.lookup 2 exHubC1.clients).map Client.filter
        = some (some [ClientFilter.Prefix ("ZZZ".toList)]) := by
  refine ⟨by decide, by decide, by decide⟩

/-- Claim C1 (amended): when a logged-in sender's packet is fresh in the
per-session dedup cache, the fan-out delivers the raw line to EVERY
other connected client regardless of that client's own filters; it is
the sender's own filter list (disjunction over its filters, permissive
when no filters are set) that decides whether the packet is fanned out
at all, and when it fails no client receives the packet. -/
theorem C1_fanout (geo : ClientFilter → List Char → Bool) (hub : Hub) (s : Session)
    (line : List Char)
    (hfresh : seahash_hash (rustTrim line) ∉ s.dup_cache) :
    ∀ i : Nat,
      ((processPacket geo hub s line).1.clients[i]?).map (fun kv => kv.2.stream)
        = (hub.clients[i]?).map (fun kv =>
            kv.2.stream ++
              (if ((match s.filters with
                     | some fs => fs.any (fun f => f.matches geo (rustTrim line))
                     | none => true) = true)
                  ∧ kv.1 ≠ s.sid
               then [line] else [])) := by
  intro i
  simp only [processPacket]
  rw [if_neg hfresh]
  by_cases hpass : (match s.filters with
      | some fs => fs.any (fun f => f.matches geo (rustTrim line))
      | none => true) = true
  · rw [if_pos hpass]
    simp only [hubIncRx, hubIncTxOthers, Hub.broadcast_packet, Hub.update_client,
      List.map_map, List.getElem?_map, Option.map_map]
    cases hub.clients[i]? with
    | none => rfl
    | some kv =>
      by_cases hkv : kv.1 = s.sid
      · simp [Function.comp, Client.inc_rx, Client.inc_tx, hkv, hpass]
      · simp [Function.comp, Client.inc_rx, Client.inc_tx, hkv, hpass]
  · rw [if_neg hpass]
    simp only [hubIncRx, Hub.update_client, List.map_map, List.getElem?_map,
      Option.map_map]
    cases hub.clients[i]? with
    | none => rfl
    | some kv =>
      by_cases hkv : kv.1 = s.sid
      · simp [Function.comp, Client.inc_rx, hkv, hpass]
      · simp [Function.comp, Client.inc_rx, hkv, hpass]

/-- Witness for claim C1: the fan-out law applied at the concrete hub of
the counterexample, index 1 (client 2). -/
theorem C1_witness :
    ((processPacket (fun _ _ => false) exHubC1 exSessC1 ("A>B:hi\n".toList)).1.clients[1]?).map
        (fun kv => kv.2.stream)
      = (exHubC1.clients[1]?).map (fun kv =>
          kv.2.stream ++
            (if ((match exSessC1.filters with
                   | some fs => fs.any (fun f =>
                       f.matches (fun _ _ => false) (rustTrim ("A>B:hi\n".toList)))
                   | none => true) = true)
                ∧ kv.1 ≠ exSessC1.sid
             then [("A>B:hi\n".toList)] else [])) :=
  C1_fanout (fun _ _ => false) exHubC1 exSessC1 ("A>B:hi\n".toList) (by decide) 1

/-- In an all-ASCII byte string every index up to the length is a
character boundary. -/
theorem ascii_boundary (s : List Nat) (hA : ∀ b ∈ s, b < 128) (i : Nat)
    (hi : i ≤ s.length) : isCharBoundaryB s i = true := by
  unfold isCharBoundaryB
  by_cases hie : i = s.length
  · rw [if_pos hie]
  · rw [if_neg hie]
    have hlt : i < s.length := lt_of_le_of_ne hi hie
    rw [List.getElem?_eq_getElem hlt]
    have hb := hA (s[i]) (List.getElem_mem hlt)
    simp [hb]

/-- On all-ASCII byte strings an in-bounds slice never panics and is the
take-drop range. -/
theorem strSliceB_ascii (s : List Nat) (hA : ∀ b ∈ s, b < 128) (a b : Nat)
    (hab : a ≤ b) (hb : b ≤ s.length) :
    strSliceB s a b = some ((s.drop a).take (b - a)) := by
  unfold strSliceB
  rw [if_pos ⟨hab, hb, ascii_boundary s hA a (le_trans hab hb), ascii_boundary s hA b hb⟩]

/-- On all-ASCII data of at least 19 bytes the slicing body of the
position parser reduces to the field-wise extraction. -/
theorem parseLatLonData_ascii (data : List Nat) (hA : ∀ b ∈ data, b < 128)
    (hlen : 19 ≤ data.length) :
    parseLatLonData data = Except.ok (parseLatLonFields data) := by
  have hA8 : ∀ b ∈ data.take 8, b < 128 := fun b hb => hA b (List.take_subset _ _ hb)
  have hA99 : ∀ b ∈ (data.drop 9).take 9, b < 128 := fun b hb =>
    hA b (List.drop_subset _ _ (List.take_subset _ _ hb))
  have hs1 : strSliceB data 0 8 = some (data.take 8) := by
    rw [strSliceB_ascii data hA 0 8 (by norm_num) (by omega)]
    norm_num
  have hs2 : strSliceB data 7 8 = some ((data.drop 7).take 1) := by
    rw [strSliceB_ascii data hA 7 8 (by norm_num) (by omega)]
  have hs3 : strSliceB data 9 18 = some ((data.drop 9).take 9) := by
    rw [strSliceB_ascii data hA 9 18 (by norm_num) (by omega)]
  have hs4 : strSliceB data 17 18 = some ((data.drop 17).take 1) := by
    rw [strSliceB_ascii data hA 17 18 (by norm_num) (by omega)]
  have hs5 : strSliceB (data.take 8) 0 2 = some (data.take 2) := by
    rw [strSliceB_ascii (data.take 8) hA8 0 2 (by norm_num)
      (by rw [List.length_take]; omega)]
    rw [List.drop_zero, List.take_take]
    norm_num
  have hs6 : strSliceB (data.take 8) 2 7 = some ((data.drop 2).take 5) := by
    rw [strSliceB_ascii (data.take 8) hA8 2 7 (by norm_num)
      (by rw [List.length_take]; omega)]
    rw [List.drop_take, List.take_take]
    norm_num
  have hs7 : strSliceB ((data.drop 9).take 9) 0 3 = some ((data.drop 9).take 3) := by
    rw [strSliceB_ascii ((data.drop 9).take 9) hA99 0 3 (by norm_num)
      (by rw [List.length_take, List.length_drop]; omega)]
    rw [List.drop_zero, List.take_take]
    norm_num
  have hs8 : strSliceB ((data.drop 9).take 9) 3 8 = some ((data.drop 12).take 5) := by
    rw [strSliceB_ascii ((data.drop 9).take 9) hA99 3 8 (by norm_num)
      (by rw [List.length_take, List.length_drop]; omega)]
    rw [List.drop_take, List.drop_drop, List.take_take]
    norm_num
  simp only [parseLatLonData, parseLatLonFields, hs1, hs2, hs3, hs4, hs5, hs6, hs7, hs8]
  cases h1 : rustF64Parse (data.take 2) with
  | none => rfl
  | some v1 =>
    cases h2 : rustF64Parse ((data.drop 2).take 5) with
    | none => rfl
    | some v2 =>
      cases h3 : rustF64Parse ((data.drop 9).take 3) with
      | none => rfl
      | some v3 =>
        cases h4 : rustF64Parse ((data.drop 12).take 5) with
        | none => rfl
        | some v4 => rfl

/-- Claim C7 counterexample: a position report whose hemisphere bytes
are `X` (88) and `Q` (81) — neither `N`/`S` nor `E`/`W` — still parses
to a position (the parser returns `Some`), where the claim requires
`null`. -/
theorem C7_counterexample :
    (parse_aprs_lat_lon (("A>B:!4903.50X/07201.75Qz".toList).map Char.toNat)).toOption.map
        Option.isSome = some true
    ∧ (("A>B:!4903.50X/07201.75Qz".toList).map Char.toNat)[12]? = some 88
    ∧ (("A>B:!4903.50X/07201.75Qz".toList).map Char.toNat)[22]? = some 81
    ∧ (88 ≠ 78 ∧ 88 ≠ 83 ∧ 81 ≠ 69 ∧ 81 ≠ 87) := by
  refine ⟨by decide, by decide, by decide, by decide⟩

/-- Claim C7 (amended): the parser validates only the payload locator,
the marker, the 19-byte length and the f64-parsability of the four
numeric fields — on all-ASCII input it equals the field-wise extraction
`parse_aprs_lat_lon_ascii`, which accepts arbitrary hemisphere and
separator bytes (only `S`/`W` negate) — and it is not total: a fixed
slice offset that splits a multi-byte UTF-8 character panics instead of
returning `null`. -/
theorem C7_position_extraction :
    (∀ packet : List Nat, (∀ b ∈ packet, b < 128) →
        parse_aprs_lat_lon packet = Except.ok (parse_aprs_lat_lon_ascii packet))
    ∧ parse_aprs_lat_lon (("A>B:!aaaaaaa".toList.map Char.toNat) ++ [195, 169]
          ++ ("0123456789".toList.map Char.toNat)) = Except.error () := by
  constructor
  · intro packet hA
    simp only [parse_aprs_lat_lon, parse_aprs_lat_lon_ascii]
    cases hci : strFindB (fun b => b = 58) packet with
    | none => rfl
    | some ci =>
      simp only []
      cases hpos : (strFindB (fun b => b = 33) (packet.drop (ci + 1))).orElse
          (fun _ => strFindB (fun b => b = 61) (packet.drop (ci + 1))) with
      | none => rfl
      | some pos =>
        simp only []
        by_cases hlen : ((packet.drop (ci + 1)).drop (pos + 1)).length < 19
        · rw [if_pos hlen, if_pos hlen]
        · rw [if_neg hlen, if_neg hlen]
          exact parseLatLonData_ascii _
            (fun b hb => hA b (List.drop_subset _ _ (List.drop_subset _ _ hb)))
            (by omega)
  · rfl

/-- Witness for claim C7: the ASCII equality applied to the repository's
own test packet. -/
theorem C7_witness :
    parse_aprs_lat_lon (("N0CALL>APRS,TCPIP*:!4903.50N/07201.75W>Test".toList).map Char.toNat)
      = Except.ok (parse_aprs_lat_lon_ascii
          (("N0CALL>APRS,TCPIP*:!4903.50N/07201.75W>Test".toList).map Char.toNat)) :=
  C7_position_extraction.1 (("N0CALL>APRS,TCPIP*:!4903.50N/07201.75W>Test".toList).map Char.toNat)
    (by decide)

end Aprsserver
